import Mathlib

/-!
Shallow embedding of the pulse-analysis pipeline in src/functions.py
(peak detection and alignment, noise PSD estimation, one-sided
periodogram, optimal filter, resolving power, decay-time fit),
together with theorems settling the specification claims.

Floating-point values are modelled as real numbers, numpy arrays as
lists, and the complex FFT as the exact discrete Fourier transform.
External SciPy routines that the repository merely calls
(scipy.signal.resample, scipy.signal.welch, scipy.optimize.curve_fit,
scipy.stats.gaussian_kde) are passed in as function parameters; every
routine implemented inside the repository is translated directly.
-/

noncomputable section

open Complex in
/-- Discrete Fourier transform with the numpy sign convention
`F[k] = sum_j x[j] * exp(-2*pi*I*j*k/n)`; models `scipy.fft.fft` on a
nonempty input.  On zero data points the SciPy call raises `ValueError`;
that error path is modelled where it matters, as a guard at the `psd`
entry point, while `dft` itself is the pure transform (`dft [] = []`). -/
def dft (x : List ℂ) : List ℂ :=
  (List.range x.length).map fun (k : ℕ) =>
    ∑ j ∈ Finset.range x.length,
      x.getD j 0 *
        Complex.exp (-2 * Real.pi * Complex.I * (j : ℂ) * (k : ℂ) / (x.length : ℂ))

/-- Python `round(n / 2)` for a natural `n`: round-half-to-even, so the
result exceeds `n / 2` (floor) exactly when `n % 4 = 3`. -/
def pyRoundHalf (n : ℕ) : ℕ :=
  if n % 4 = 3 then n / 2 + 1 else n / 2

/-- Python `int(r)` for the nonnegative reals this code feeds it
(truncation towards zero equals the floor there). -/
def pyIntOf (r : ℝ) : ℕ :=
  Int.toNat ⌊r⌋

/-- Minimum of a list, `np.min` / `np.amin`; the numpy call errors on an
empty array, which callers below guard against (the `[]` case is a
dummy value). -/
def listMin : List ℝ → ℝ
  | [] => 0
  | h :: t => t.foldl min h

/-- Maximum of a list, `np.max` / `np.amax`; same empty-array caveat as
`listMin`. -/
def listMax : List ℝ → ℝ
  | [] => 0
  | h :: t => t.foldl max h

/-- Arithmetic mean of a list, `np.mean` (the `[]` case is numpy's nan,
modelled as 0; callers below never hit it). -/
def listMean (l : List ℝ) : ℝ :=
  l.sum / l.length

/-- Propositional filter, evaluation-friendly version of `List.filter`
used for numpy boolean-mask indexing. -/
def filterP (p : α → Prop) [DecidablePred p] : List α → List α
  | [] => []
  | a :: t => if p a then a :: filterP p t else filterP p t

/-- Propositional take-while, used for the prominence scans. -/
def takeWhileP (p : α → Prop) [DecidablePred p] : List α → List α
  | [] => []
  | a :: t => if p a then a :: takeWhileP p t else []

/-- Apply a numpy boolean mask: keep the elements whose mask entry is
true (`arr[mask]`). -/
def applyMask (mask : List Bool) (l : List α) : List α :=
  ((l.zip mask).filter fun p => p.2).map fun p => p.1

/-- Python slice `xs[a:b]` with step 1, including the normalisation of
negative bounds. -/
def pySlice (xs : List α) (a b : ℤ) : List α :=
  let n : ℤ := xs.length
  let a' := if a < 0 then max (n + a) 0 else min a n
  let b' := if b < 0 then max (n + b) 0 else min b n
  (xs.take b'.toNat).drop a'.toNat

/-- Index of the first `true` in a boolean list; `np.argmax` on a boolean
array (0 when no element is true; the empty-array error case is 0). -/
def firstTrueIdx : List Bool → ℕ
  | [] => 0
  | b :: t => if b then 0 else if t.any id then firstTrueIdx t + 1 else 0

/-- Index of the first occurrence of the maximum, `np.argmax` on a real
array. -/
def npArgmax (l : List ℝ) : ℕ :=
  firstTrueIdx (l.map fun v => decide (v = listMax l))

/-- Elementwise sum of two equal-length arrays (`+=` on numpy arrays). -/
def addLists (a b : List ℝ) : List ℝ :=
  List.zipWith (· + ·) a b

/-- Full discrete convolution `np.convolve(a, v)`. -/
def convolveFull (a v : List ℝ) : List ℝ :=
  (List.range (a.length + v.length - 1)).map fun n =>
    ∑ j ∈ Finset.range v.length,
      if j ≤ n then v.getD j 0 * a.getD (n - j) 0 else 0

/-- Discrete convolution in mode `'valid'`, `np.convolve(a, v, 'valid')`. -/
def convolveValid (a v : List ℝ) : List ℝ :=
  let m := min a.length v.length
  ((convolveFull a v).drop (m - 1)).take (max a.length v.length - m + 1)

/-- Grid `np.arange(a, b, step)` for a positive step. -/
def pyArange (a b step : ℝ) : List ℝ :=
  (List.range (Int.toNat ⌈(b - a) / step⌉)).map fun (i : ℕ) => a + (i : ℝ) * step

/-- Grid `np.linspace(a, b, n)` (endpoint included). -/
def pyLinspace (a b : ℝ) (n : ℕ) : List ℝ :=
  (List.range n).map fun (i : ℕ) => a + (i : ℝ) * (b - a) / ((n - 1 : ℕ) : ℝ)

/-- Error taxonomy of the pipeline (section 7 of the design), together
with `valueErr` for the numpy/scipy `ValueError` escaping from library
calls (e.g. `scipy.fft.fft` on zero data points), which is not an
`InputShapeError`. -/
inductive PulseErr where
  | inputShape
  | insufficientData
  | configuration
  | valueErr
  deriving DecidableEq

/-!
The "too close" spacing filter of `peak_model` (src/functions.py lines
195-204).  `diff_locs[0]` is left equal to `locs[0]` itself, so the
first candidate's distance to the start of the signal is treated like a
neighbour spacing.
-/

/-- Spacing array: `diff_locs = copy(locs)` followed by
`diff_locs[1:] -= locs[:-1]`. -/
def diffLocs (locs : List ℤ) : List ℤ :=
  List.zipWith (· - ·) locs (0 :: locs)

/-- Mask `filter_left = diff_locs > buffer_len`: true for candidates far
enough from their predecessor (or from the signal start, for the first). -/
def filterLeftMask (bufferLen : ℤ) (locs : List ℤ) : List Bool :=
  (diffLocs locs).map fun d => if bufferLen < d then true else false

/-- Mask `filter_right = np.hstack((filter_left[1:], True))`. -/
def filterRightMask (bufferLen : ℤ) (locs : List ℤ) : List Bool :=
  (filterLeftMask bufferLen locs).tail ++ [true]

/-- Combined mask `filter = filter_left & filter_right`: candidates kept
by the "too close" filter. -/
def tooCloseMask (bufferLen : ℤ) (locs : List ℤ) : List Bool :=
  List.zipWith (· && ·) (filterLeftMask bufferLen locs) (filterRightMask bufferLen locs)

lemma listGetD (l : List α) (d : α) (i : ℕ) (h : i < l.length) :
    l.getD i d = l[i] := by
  simp [List.getD, List.getElem?_eq_getElem h]

lemma diffLocs_length (locs : List ℤ) : (diffLocs locs).length = locs.length := by
  simp [diffLocs]

lemma filterLeftMask_length (bufferLen : ℤ) (locs : List ℤ) :
    (filterLeftMask bufferLen locs).length = locs.length := by
  simp [filterLeftMask, diffLocs_length]

lemma filterLeftMask_getD (bufferLen : ℤ) (locs : List ℤ) (i : ℕ) (hi : i < locs.length) :
    (filterLeftMask bufferLen locs).getD i true =
      if bufferLen < (diffLocs locs).getD i 0 then true else false := by
  have h1 : i < (diffLocs locs).length := by rwa [diffLocs_length]
  simp [filterLeftMask, List.getD, List.getElem?_map, List.getElem?_eq_getElem h1]

lemma diffLocs_getD (locs : List ℤ) (i : ℕ) (hi : i < locs.length) :
    (diffLocs locs).getD i 0 =
      locs.getD i 0 - (if i = 0 then 0 else locs.getD (i - 1) 0) := by
  have h1 : i < (diffLocs locs).length := by rwa [diffLocs_length]
  rw [listGetD _ _ _ h1]
  simp only [diffLocs] at h1 ⊢
  rw [List.getElem_zipWith]
  rcases i with _ | j
  · simp [List.getElem?_eq_getElem hi]
  · have hj : j < locs.length := by omega
    simp [List.getElem?_eq_getElem hi, List.getElem?_eq_getElem hj]

lemma filterRightMask_getD (bufferLen : ℤ) (locs : List ℤ) (i : ℕ) (hi : i < locs.length) :
    (filterRightMask bufferLen locs).getD i true =
      if i + 1 < locs.length then (filterLeftMask bufferLen locs).getD (i + 1) true
      else true := by
  have hlen : (filterLeftMask bufferLen locs).length = locs.length :=
    filterLeftMask_length _ _
  have htl : (filterLeftMask bufferLen locs).tail.length = locs.length - 1 := by
    simp [hlen]
  have hrl : (filterRightMask bufferLen locs).length = locs.length - 1 + 1 := by
    simp [filterRightMask, htl]
  have hi' : i < (filterRightMask bufferLen locs).length := by omega
  rw [listGetD _ _ _ hi']
  by_cases h : i + 1 < locs.length
  · have h1 : i < (filterLeftMask bufferLen locs).tail.length := by omega
    have h2 : i + 1 < (filterLeftMask bufferLen locs).length := by omega
    rw [if_pos h]
    have : (filterRightMask bufferLen locs)[i] =
        (filterLeftMask bufferLen locs).tail[i] := by
      simp [filterRightMask, List.getElem_append_left h1]
    rw [this, List.getElem_tail, listGetD _ _ _ h2]
  · rw [if_neg h]
    have h1 : (filterLeftMask bufferLen locs).tail.length ≤ i := by omega
    have h2 : i - (filterLeftMask bufferLen locs).tail.length = 0 := by omega
    simp only [filterRightMask]
    rw [List.getElem_append_right h1]
    simp [h2]

lemma tooCloseMask_length (bufferLen : ℤ) (locs : List ℤ) :
    (tooCloseMask bufferLen locs).length = min locs.length (locs.length - 1 + 1) := by
  have htl : (filterLeftMask bufferLen locs).tail.length = locs.length - 1 := by
    simp [filterLeftMask_length]
  simp [tooCloseMask, filterLeftMask_length, filterRightMask, htl]

lemma tooCloseMask_dropped_iff (bufferLen : ℤ) (locs : List ℤ) (i : ℕ)
    (hi : i < locs.length) :
    (tooCloseMask bufferLen locs).getD i true = false ↔
      ((if i = 0 then locs.getD 0 0 else locs.getD i 0 - locs.getD (i - 1) 0) ≤ bufferLen ∨
        (i + 1 < locs.length ∧ locs.getD (i + 1) 0 - locs.getD i 0 ≤ bufferLen)) := by
  have hml : i < (tooCloseMask bufferLen locs).length := by
    rw [tooCloseMask_length]; omega
  have hll : i < (filterLeftMask bufferLen locs).length := by
    rw [filterLeftMask_length]; omega
  have hrl' : i < (filterRightMask bufferLen locs).length := by
    have htl : (filterLeftMask bufferLen locs).tail.length = locs.length - 1 := by
      simp [filterLeftMask_length]
    simp [filterRightMask, htl]; omega
  have hz : (tooCloseMask bufferLen locs).getD i true =
      ((filterLeftMask bufferLen locs).getD i true &&
        (filterRightMask bufferLen locs).getD i true) := by
    rw [listGetD _ _ _ hml, listGetD _ _ _ hll, listGetD _ _ _ hrl']
    simp [tooCloseMask]
  rw [hz, filterLeftMask_getD _ _ _ hi, filterRightMask_getD _ _ _ hi,
    diffLocs_getD _ _ hi]
  by_cases h : i + 1 < locs.length
  · rw [if_pos h, filterLeftMask_getD _ _ _ h, diffLocs_getD _ _ h]
    have h1 : ¬ (i + 1 = 0) := by omega
    have h2 : i + 1 - 1 = i := by omega
    rw [if_neg h1, h2]
    by_cases h0 : i = 0
    · subst h0
      simp only [if_pos rfl]
      by_cases ha : bufferLen < locs.getD 0 0 - 0 <;>
        by_cases hb : bufferLen < locs.getD 1 0 - locs.getD 0 0 <;>
          simp [ha, hb] <;> omega
    · simp only [if_neg h0]
      by_cases ha : bufferLen < locs.getD i 0 - locs.getD (i - 1) 0 <;>
        by_cases hb : bufferLen < locs.getD (i + 1) 0 - locs.getD i 0 <;>
          simp [ha, hb] <;> omega
  · rw [if_neg h]
    by_cases h0 : i = 0
    · subst h0
      simp only [if_pos rfl]
      by_cases ha : bufferLen < locs.getD 0 0 - 0 <;> simp [ha] <;> omega
    · simp only [if_neg h0]
      by_cases ha : bufferLen < locs.getD i 0 - locs.getD (i - 1) 0 <;>
        simp [ha] <;> omega

/-- C4: the "too close" filter of the Pulse Detector drops a candidate
exactly when its spacing to a neighbour is at most `2*buffer +
pulse_window` — NOT strictly less than, as the claim states.  At
`buffer_len = 10` and candidates `[20, 30]`, spaced exactly 10 apart,
both mask entries are false (both dropped), refuting the claim that a
candidate at spacing exactly `2*buffer + pulse_window` is kept. -/
theorem tooClose_exact_spacing_dropped :
    tooCloseMask 10 [20, 30] = [false, false] ∧ ¬ ((30 : ℤ) - 20 < 10) := by
  constructor
  · rfl
  · omega

/-- C4 (amended): a candidate is dropped by the "too close" filter iff
its spacing to the previous candidate (the first candidate's location
index standing in for that spacing) or to the next candidate is less
than OR EQUAL to `2*buffer + pulse_window`. -/
theorem tooClose_dropped_iff (bufferLen : ℤ) (locs : List ℤ) (i : ℕ)
    (hi : i < locs.length) :
    (tooCloseMask bufferLen locs).getD i true = false ↔
      ((if i = 0 then locs.getD 0 0 else locs.getD i 0 - locs.getD (i - 1) 0) ≤ bufferLen ∨
        (i + 1 < locs.length ∧ locs.getD (i + 1) 0 - locs.getD i 0 ≤ bufferLen)) :=
  tooCloseMask_dropped_iff bufferLen locs i hi

/-- Witness for C4 (amended), at `buffer_len = 10`, candidates
`[20, 30]`, index 1: dropped, because its spacing to the previous
candidate is exactly 10. -/
theorem tooClose_dropped_iff_witness :
    (tooCloseMask 10 [20, 30]).getD 1 true = false ↔
      ((if (1 : ℕ) = 0 then ([20, 30] : List ℤ).getD 0 0
          else ([20, 30] : List ℤ).getD 1 0 - ([20, 30] : List ℤ).getD (1 - 1) 0) ≤ 10 ∨
        (1 + 1 < ([20, 30] : List ℤ).length ∧
          ([20, 30] : List ℤ).getD (1 + 1) 0 - ([20, 30] : List ℤ).getD 1 0 ≤ 10)) :=
  tooClose_dropped_iff 10 [20, 30] 1 (by decide)

/-- C10: the first detected candidate is dropped by the spacing filter
whenever its location index is at most `2*buffer + pulse_window`,
because `diff_locs[0]` keeps the value `locs[0]` (the distance to the
start of the signal) and is compared like a neighbour spacing. -/
theorem firstCandidate_dropped (bufferLen : ℤ) (locs : List ℤ)
    (hne : locs ≠ []) (h0 : locs.getD 0 0 ≤ bufferLen) :
    (tooCloseMask bufferLen locs).getD 0 true = false := by
  have hi : 0 < locs.length := by
    cases locs with
    | nil => exact absurd rfl hne
    | cons a t => simp
  rw [tooCloseMask_dropped_iff bufferLen locs 0 hi]
  left
  simpa using h0

/-- Witness for C10: candidates `[5, 100]` with `buffer_len = 10`; the
first candidate sits at index 5 ≤ 10 and is dropped even though its
only neighbour is 95 samples away. -/
theorem firstCandidate_dropped_witness :
    (tooCloseMask 10 [5, 100]).getD 0 true = false :=
  firstCandidate_dropped 10 [5, 100] (by decide) (by decide)

/-!
Peak detection, modelling `scipy.signal.find_peaks(x, height, prominence)`
as the repository uses it: local maxima (with plateau midpoints), then
the height filter, then the prominence filter.
-/

/-- End of a plateau of samples equal to `x i`: the smallest index
`j` with `iMax ≤ j` or `x j ≠ x i` (the inner while-loop of scipy's
local-maxima scan).  `fuel` bounds the scan and is always supplied
large enough. -/
def lmPlateauEnd (x : ℕ → ℝ) (iMax i : ℕ) : ℕ → ℕ → ℕ
  | 0, j => j
  | fuel + 1, j => if j < iMax ∧ x j = x i then lmPlateauEnd x iMax i fuel (j + 1) else j

/-- Main scan of scipy's local-maxima search: `i` runs from 1 while
`i < iMax`; an ascent followed by a strict descent records the plateau
midpoint. -/
def lmLoop (x : ℕ → ℝ) (iMax : ℕ) : ℕ → ℕ → List ℕ
  | 0, _ => []
  | fuel + 1, i =>
    if i < iMax then
      if x (i - 1) < x i then
        let iAhead := lmPlateauEnd x iMax i (iMax + 1) (i + 1)
        if x iAhead < x i then
          ((i + iAhead - 1) / 2) :: lmLoop x iMax fuel (iAhead + 1)
        else lmLoop x iMax fuel (i + 1)
      else lmLoop x iMax fuel (i + 1)
    else []

/-- Indices of the local maxima of a sequence (plateau midpoints),
scipy's `_local_maxima_1d`. -/
def localMaxima (xs : List ℝ) : List ℕ :=
  lmLoop (fun k => xs.getD k 0) (xs.length - 1) (xs.length + 1) 1

/-- Prominence of the peak at index `p`: walk outwards on both sides
while samples stay at or below the peak, and subtract the larger of the
two minima found (scipy's `_peak_prominences` with `wlen = None`). -/
def peakProminence (xs : List ℝ) (p : ℕ) : ℝ :=
  let xp := xs.getD p 0
  let leftStretch := takeWhileP (fun v => v ≤ xp) ((xs.take (p + 1)).reverse)
  let rightStretch := takeWhileP (fun v => v ≤ xp) (xs.drop p)
  xp - max (listMin leftStretch) (listMin rightStretch)

/-- Model of `scipy.signal.find_peaks(xs, height=mph, prominence=mpp)`:
returns the surviving peak indices and their heights (the
`peak_heights` property). -/
def find_peaks (xs : List ℝ) (mph mpp : ℝ) : List ℕ × List ℝ :=
  let locs0 := localMaxima xs
  let locs1 := filterP (fun p => mph ≤ xs.getD p 0) locs0
  let locs2 := filterP (fun p => mpp ≤ peakProminence xs p) locs1
  (locs2, locs2.map fun p => xs.getD p 0)

/-!
The one-sided periodogram `psd` (src/functions.py lines 439-464).
-/

/-- In-place doubling `psd_array[1:-1] *= 2`: every entry except the
first and the last is doubled. -/
def doubleMiddle (p : List ℝ) : List ℝ :=
  (List.range p.length).map fun i =>
    if 1 ≤ i ∧ i + 1 < p.length then 2 * p.getD i 0 else p.getD i 0

/-- The 1-D branch of `psd`: `len_onesided = round(len/2) + 1` bins of
`|fft|^2 / (len * fs)`, middle bins doubled.  This is the pure
computation executed when `len_pulse ≠ 0`; on an empty input the Python
branch raises (the fft `ValueError`), which the dispatching `psd` below
models as a guard before calling `psd1`. -/
def psd1 (x : List ℝ) (fs : ℝ) : List ℝ :=
  let lenPulse := x.length
  let lenOnesided := pyRoundHalf lenPulse + 1
  let fftOnesided := (dft (x.map Complex.ofReal)).take lenOnesided
  doubleMiddle (fftOnesided.map fun z => 1 / (lenPulse * fs) * Complex.abs z ^ 2)

/-- The 2-D branch of `psd`: the same computation per row, with the
length read off `array.shape[1]` (rows of a numpy 2-D array all have
that length). -/
def psd2 (xss : List (List ℝ)) (fs : ℝ) : List (List ℝ) :=
  let lenPulse := (xss.headD []).length
  let lenOnesided := pyRoundHalf lenPulse + 1
  xss.map fun row =>
    doubleMiddle (((dft (row.map Complex.ofReal)).take lenOnesided).map
      fun z => 1 / (lenPulse * fs) * Complex.abs z ^ 2)

/-- A numpy array of arbitrary rank, as far as `psd` inspects it:
`psd` only reads `array.ndim` and then the 1-D or 2-D payload. -/
inductive Ndarray where
  | scalar (v : ℝ)
  | vec (xs : List ℝ)
  | mat (xss : List (List ℝ))
  | higher (k : ℕ)

/-- Rank (`ndim`) of an `Ndarray`; `higher k` stands for rank `k + 3`. -/
def Ndarray.ndim : Ndarray → ℕ
  | scalar _ => 0
  | vec _ => 1
  | mat _ => 2
  | higher k => k + 3

/-- The dispatching `psd`: 1-D and 2-D inputs are handled, anything else
raises (the `InputShapeError` of the design's error taxonomy).  Inside
the 1-D and 2-D branches, `scipy.fft.fft` raises `ValueError` when the
number of data points (`len_pulse`, i.e. `array.size` resp.
`array.shape[1]`) is zero; that library error is modelled as the
`valueErr` guard.  (A numpy array with zero rows but a positive column
count is not representable as a list of rows; the empty `mat` stands
for the `(0, 0)` shape, whose `shape[1]` is 0.) -/
def psd (a : Ndarray) (fs : ℝ) : Except PulseErr Ndarray :=
  match a with
  | .vec xs =>
      if xs.length = 0 then .error .valueErr
      else .ok (.vec (psd1 xs fs))
  | .mat xss =>
      if (xss.headD []).length = 0 then .error .valueErr
      else .ok (.mat (psd2 xss fs))
  | _ => .error .inputShape

/-- The length the `psd` branches feed to the FFT: `array.size` for a
1-D input, `array.shape[1]` for a 2-D input (0 on the ranks `psd`
rejects outright). -/
def Ndarray.rowLen : Ndarray → ℕ
  | .vec xs => xs.length
  | .mat xss => (xss.headD []).length
  | _ => 0

lemma dft_length (x : List ℂ) : (dft x).length = x.length := by
  unfold dft
  rw [List.length_map, List.length_range]

lemma doubleMiddle_length (p : List ℝ) : (doubleMiddle p).length = p.length := by
  simp [doubleMiddle]

lemma pyRoundHalf_add_one_le (n : ℕ) (h : 1 ≤ n) : pyRoundHalf n + 1 ≤ n := by
  unfold pyRoundHalf
  split <;> omega

lemma psd1_length (x : List ℝ) (fs : ℝ) (hx : 1 ≤ x.length) :
    (psd1 x fs).length = pyRoundHalf x.length + 1 := by
  have h := pyRoundHalf_add_one_le x.length hx
  simp only [psd1, doubleMiddle_length, List.length_map, List.length_take, dft_length]
  omega

lemma doubleMiddle_getD (p : List ℝ) (i : ℕ) (hi : i < p.length) :
    (doubleMiddle p).getD i 0 =
      if 1 ≤ i ∧ i + 1 < p.length then 2 * p.getD i 0 else p.getD i 0 := by
  have h1 : i < (doubleMiddle p).length := by rw [doubleMiddle_length]; exact hi
  rw [listGetD _ _ _ h1]
  simp only [doubleMiddle]
  rw [List.getElem_map]
  simp [List.getElem_range]

lemma doubleMiddle_nonneg (p : List ℝ) (hp : ∀ y ∈ p, 0 ≤ y) :
    ∀ y ∈ doubleMiddle p, 0 ≤ y := by
  intro y hy
  simp only [doubleMiddle, List.mem_map, List.mem_range] at hy
  obtain ⟨i, hi, rfl⟩ := hy
  have hgd : 0 ≤ p.getD i 0 := by
    by_cases h : i < p.length
    · rw [listGetD _ _ _ h]
      exact hp _ (List.getElem_mem h)
    · rw [List.getD_eq_default _ _ (by omega)]
  split
  · linarith
  · exact hgd

lemma psd1_nonneg (x : List ℝ) (fs : ℝ) (hfs : 0 ≤ fs) :
    ∀ y ∈ psd1 x fs, 0 ≤ y := by
  have hbase : (0 : ℝ) ≤ 1 / (x.length * fs) := by positivity
  refine doubleMiddle_nonneg _ ?_
  intro y hy
  simp only [List.mem_map] at hy
  obtain ⟨z, hz, rfl⟩ := hy
  positivity

/-- C2 (amended): for inputs of length `N ≥ 1` and positive sample rate
the PSD has length `round(N/2) + 1` with Python's round-half-to-even
(this equals `floor(N/2) + 1` unless `N % 4 = 3`, where it is one
longer), and all its values are non-negative. -/
theorem psd_length_and_nonneg (x : List ℝ) (fs : ℝ) (hx : 1 ≤ x.length)
    (hfs : 0 < fs) :
    (psd1 x fs).length = pyRoundHalf x.length + 1 ∧ ∀ y ∈ psd1 x fs, 0 ≤ y :=
  ⟨psd1_length x fs hx, psd1_nonneg x fs hfs.le⟩

/-- Witness for C2 (amended) at the one-sample input `[1]` with unit
sample rate. -/
theorem psd_length_and_nonneg_witness :
    (psd1 [1] 1).length = pyRoundHalf 1 + 1 ∧ ∀ y ∈ psd1 [1] 1, 0 ≤ y :=
  psd_length_and_nonneg [1] 1 (by simp) (by norm_num)

/-- C2: counterexample to the claimed output length `floor(N/2) + 1`.
At `N = 3` the code computes `round(3/2) + 1 = 3` one-sided bins
(Python's `round` gives 2), not `floor(3/2) + 1 = 2`. -/
theorem psd_length_three_of_n_three :
    (psd1 [0, 0, 0] 1).length = 3 ∧ (3 : ℕ) ≠ ([0, 0, 0] : List ℝ).length / 2 + 1 := by
  constructor
  · rw [psd1_length _ _ (by simp)]
    norm_num [pyRoundHalf]
  · simp

/-- C8 (amended): `psd` raises `InputShapeError` exactly for inputs
whose rank is neither 1 nor 2 (this includes rank 0, which the claim's
"rank greater than 2" wording misses); and an input of rank 1 or 2
succeeds if and only if the length fed to the FFT (`array.size` resp.
`array.shape[1]`) is nonzero — on an empty 1-D input or a 2-D input
with empty rows the `scipy.fft.fft` call raises `ValueError` instead,
which is not an `InputShapeError`. -/
theorem psd_error_iff_bad_rank (a : Ndarray) (fs : ℝ) :
    (psd a fs = .error .inputShape ↔ a.ndim ≠ 1 ∧ a.ndim ≠ 2) ∧
      ((psd a fs).isOk = true ↔ (a.ndim = 1 ∨ a.ndim = 2) ∧ a.rowLen ≠ 0) := by
  cases a with
  | scalar v =>
      simp [psd, Ndarray.ndim, Ndarray.rowLen, Except.isOk, Except.toBool]
  | vec xs =>
      by_cases h : xs.length = 0
      · obtain rfl : xs = [] := List.length_eq_zero.mp h
        simp [psd, Ndarray.ndim, Ndarray.rowLen, Except.isOk, Except.toBool]
      · have h1 : xs ≠ [] := fun c => h (by simp [c])
        simp only [psd, if_neg h]
        simp [Ndarray.ndim, Ndarray.rowLen, Except.isOk, Except.toBool, h, h1]
  | mat xss =>
      by_cases h : (xss.headD []).length = 0
      · have h2 : xss.headD [] = [] := List.length_eq_zero.mp h
        rw [List.headD_eq_head?_getD] at h2
        simp only [psd, if_pos h]
        simp [Ndarray.ndim, Ndarray.rowLen, Except.isOk, Except.toBool, h, h2]
      · have h1 : xss.headD [] ≠ [] := fun c => h (by rw [c]; rfl)
        rw [List.headD_eq_head?_getD] at h1
        simp only [psd, if_neg h]
        simp [Ndarray.ndim, Ndarray.rowLen, Except.isOk, Except.toBool, h, h1]
  | higher k =>
      simp [psd, Ndarray.ndim, Ndarray.rowLen, Except.isOk, Except.toBool]

/-- C8: counterexample to "fails exactly for rank greater than 2" — a
rank-0 (scalar) input also falls through to the error branch. -/
theorem psd_scalar_fails :
    psd (Ndarray.scalar 0) 1 = .error .inputShape ∧
      ¬ (Ndarray.scalar 0).ndim > 2 :=
  ⟨rfl, by simp [Ndarray.ndim]⟩

/-- One-sided periodogram as claim C5 words it (for comparison with the
code's `psd1`): all `floor(N/2) + 1` non-negative-frequency bins of
`|FFT[k]|^2 / (N*fs)`, doubled for every bin except DC and — only when
`N` is even — the Nyquist bin. -/
def psdSpecC5 (x : List ℝ) (fs : ℝ) : List ℝ :=
  let N := x.length
  (List.range (N / 2 + 1)).map fun k =>
    (if k = 0 ∨ (N % 2 = 0 ∧ k = N / 2) then 1 else 2) *
      (1 / (N * fs) * Complex.abs ((dft (x.map Complex.ofReal)).getD k 0) ^ 2)

lemma dft_delta_five :
    dft (List.map Complex.ofReal [1, 0, 0, 0, 0]) = [1, 1, 1, 1, 1] := by
  unfold dft
  norm_num [List.range_succ, Finset.sum_range_succ]

lemma psd1_delta_five : psd1 [1, 0, 0, 0, 0] 1 = [1 / 5, 2 / 5, 1 / 5] := by
  simp only [psd1, dft_delta_five]
  norm_num [pyRoundHalf, doubleMiddle, List.range_succ]

lemma psdSpecC5_delta_five :
    psdSpecC5 [1, 0, 0, 0, 0] 1 = [1 / 5, 2 / 5, 2 / 5] := by
  simp only [psdSpecC5, dft_delta_five]
  norm_num [List.range_succ]

/-- C5: counterexample to "for odd N every bin except DC is doubled".
For the length-5 input `[1,0,0,0,0]` (flat spectrum) the code leaves the
final one-sided bin undoubled and returns `[1/5, 2/5, 1/5]`, while the
claim's formula gives `[1/5, 2/5, 2/5]`. -/
theorem psd_odd_last_bin_not_doubled :
    psd1 [1, 0, 0, 0, 0] 1 ≠ psdSpecC5 [1, 0, 0, 0, 0] 1 := by
  rw [psd1_delta_five, psdSpecC5_delta_five]
  intro h
  have h2 := congrArg (fun l => l.getD 2 0) h
  norm_num at h2

/-- C5 (amended): every returned PSD value is `|FFT[k]|^2 / (N*fs)`
doubled for all bins except the FIRST AND THE LAST of the returned
array; for even `N` the last returned bin is the Nyquist bin as the
claim says, but for odd `N` the last returned bin is also left
undoubled. -/
theorem psd_doubling_pattern (x : List ℝ) (fs : ℝ) (k : ℕ)
    (hk : k < (psd1 x fs).length) :
    (psd1 x fs).getD k 0 =
      (if k = 0 ∨ k + 1 = (psd1 x fs).length then 1 else 2) *
        (1 / (x.length * fs) *
          Complex.abs ((dft (x.map Complex.ofReal)).getD k 0) ^ 2) := by
  have hlen : (psd1 x fs).length =
      min (pyRoundHalf x.length + 1) x.length := by
    simp [psd1, doubleMiddle_length, dft_length]
  have hmin : k < min (pyRoundHalf x.length + 1) x.length := by
    rw [← hlen]; exact hk
  have hkd : k < (dft (x.map Complex.ofReal)).length := by
    rw [dft_length, List.length_map]
    omega
  have hpq : psd1 x fs =
      doubleMiddle (((dft (x.map Complex.ofReal)).take (pyRoundHalf x.length + 1)).map
        (fun z => 1 / ((x.length : ℝ) * fs) * Complex.abs z ^ 2)) := rfl
  have hql : (((dft (x.map Complex.ofReal)).take (pyRoundHalf x.length + 1)).map
      (fun z => 1 / ((x.length : ℝ) * fs) * Complex.abs z ^ 2)).length =
      min (pyRoundHalf x.length + 1) x.length := by
    simp [dft_length]
  have hkq : k < (((dft (x.map Complex.ofReal)).take (pyRoundHalf x.length + 1)).map
      (fun z => 1 / ((x.length : ℝ) * fs) * Complex.abs z ^ 2)).length := by
    rw [hql]; exact hmin
  have hqk : (((dft (x.map Complex.ofReal)).take (pyRoundHalf x.length + 1)).map
      (fun z => 1 / ((x.length : ℝ) * fs) * Complex.abs z ^ 2)).getD k 0 =
      1 / ((x.length : ℝ) * fs) *
        Complex.abs ((dft (x.map Complex.ofReal)).getD k 0) ^ 2 := by
    rw [listGetD _ _ _ hkq, List.getElem_map, List.getElem_take,
      listGetD _ _ _ hkd]
  rw [hpq, doubleMiddle_getD _ _ hkq, doubleMiddle_length, hqk, hql]
  by_cases hc : 1 ≤ k ∧ k + 1 < min (pyRoundHalf x.length + 1) x.length
  · rw [if_pos hc, if_neg (by omega)]
  · rw [if_neg hc, if_pos (by omega)]
    ring

/-- Witness for C5 (amended): the middle bin of the length-2 PSD of
`[1, 0]` at unit sample rate. -/
theorem psd_doubling_pattern_witness :
    (psd1 [1, 0] 1).getD 1 0 =
      (if (1 : ℕ) = 0 ∨ 1 + 1 = (psd1 [1, 0] 1).length then 1 else 2) *
        (1 / (([1, 0] : List ℝ).length * 1) *
          Complex.abs ((dft (([1, 0] : List ℝ).map Complex.ofReal)).getD 1 0) ^ 2) :=
  psd_doubling_pattern [1, 0] 1 1
    (by rw [psd1_length _ _ (by simp)]; norm_num [pyRoundHalf])

/-!
Decay-time fitting (src/functions.py lines 524-567).  The nonlinear
least-squares solver `scipy.optimize.curve_fit` is external; it is
modelled as an oracle returning the fitted parameters `popt` and the
covariance matrix `pcov` (given row-wise as two pairs).
-/

/-- One-term exponential `exp_decay(x, a, b) = a * exp(-b * x)` used for
aluminium KIDs. -/
def exp_decay (x a b : ℝ) : ℝ :=
  a * Real.exp (-b * x)

/-- The `1/t` model `one_over_t(x, a, b, c) = a / ((1+c) * exp(b*x) - 1)`
used for bTa KIDs. -/
def one_over_t (x a b c : ℝ) : ℝ :=
  a / ((1 + c) * Real.exp (b * x) - 1)

/-- Tail-selection rule `fit_T`: a scalar lower time bound, or a time
interval (the repository accepts an int/float or a tuple/list and raises
on anything else; the tagged variant carries exactly the valid cases). -/
inductive FitWindow where
  | lower (a : ℝ)
  | interval (a b : ℝ)

/-- Tail samples selected for the fit: `pulse[t > fit_T]` or
`pulse[(t > fit_T[0]) & (t < fit_T[1])]` with
`t = np.linspace(0, pw, len(pulse))`. -/
def tailSelect (pulse : List ℝ) (pw : ℕ) (fitT : FitWindow) : List ℝ :=
  let t := pyLinspace 0 (pw : ℝ) pulse.length
  match fitT with
  | .lower a => (filterP (fun pr => a < pr.2) (pulse.zip t)).map fun pr => pr.1
  | .interval a b =>
      (filterP (fun pr => a < pr.2 ∧ pr.2 < b) (pulse.zip t)).map fun pr => pr.1

/-- Abscissa of the fit, `fit_x = np.arange(len(fit_pulse))`. -/
def tailX (pulse : List ℝ) (pw : ℕ) (fitT : FitWindow) : List ℝ :=
  (List.range (tailSelect pulse pw fitT).length).map fun (i : ℕ) => (i : ℝ)

/-- Translation of `fit_decaytime(pulse, pw, fit_T)`: cut the tail, call
the least-squares oracle, and return
`(tau_qp, dtau_qp, popt) = (1/popt[1]/ssf, sqrt(diag(pcov))[1], popt)`
with `ssf = int(len(pulse)/pw)`. -/
def fit_decaytime (curveFit : List ℝ → List ℝ → (ℝ × ℝ) × ((ℝ × ℝ) × (ℝ × ℝ)))
    (pulse : List ℝ) (pw : ℕ) (fitT : FitWindow) : ℝ × ℝ × (ℝ × ℝ) :=
  let l := pulse.length
  let ssf := l / pw
  let fitPulse := tailSelect pulse pw fitT
  let fitX := tailX pulse pw fitT
  let res := curveFit fitX fitPulse
  let popt := res.1
  let pcov := res.2
  let perr := (Real.sqrt pcov.1.1, Real.sqrt pcov.2.2)
  (1 / popt.2 / (ssf : ℝ), perr.2, popt)

/-- C6: for a pulse whose length is a multiple of the nominal window
`pw`, `fit_decaytime` returns the time constant
`tau = 1/(b * ssf)` with `ssf = len(pulse)/pw` and `b` the fitted rate
parameter, the square root of the second diagonal entry of the fit
covariance as the one-standard-deviation error, and the raw fitted
parameters. -/
theorem fit_decaytime_eq (curveFit : List ℝ → List ℝ → (ℝ × ℝ) × ((ℝ × ℝ) × (ℝ × ℝ)))
    (pulse : List ℝ) (pw : ℕ) (fitT : FitWindow)
    (hpw : 0 < pw) (hdvd : pw ∣ pulse.length) :
    fit_decaytime curveFit pulse pw fitT =
      (1 / ((curveFit (tailX pulse pw fitT) (tailSelect pulse pw fitT)).1.2 *
          ((pulse.length : ℝ) / (pw : ℝ))),
        Real.sqrt (curveFit (tailX pulse pw fitT) (tailSelect pulse pw fitT)).2.2.2,
        (curveFit (tailX pulse pw fitT) (tailSelect pulse pw fitT)).1) := by
  have hcast : ((pulse.length / pw : ℕ) : ℝ) = (pulse.length : ℝ) / (pw : ℝ) :=
    Nat.cast_div hdvd (Nat.cast_ne_zero.mpr hpw.ne')
  simp only [fit_decaytime, hcast, div_div]

/-- Witness for C6: a length-4 pulse with nominal window 2 and a
constant least-squares oracle; the returned triple is
`(1/(2 * (4/2)), sqrt 9, (3, 2))`. -/
theorem fit_decaytime_eq_witness :
    fit_decaytime (fun _ _ => ((3, 2), ((5, 0), (0, 9)))) [4, 3, 2, 1] 2
        (FitWindow.lower 0) =
      (1 / (((fun (_ _ : List ℝ) => (((3 : ℝ), (2 : ℝ)), (((5 : ℝ), (0 : ℝ)), ((0 : ℝ), (9 : ℝ)))))
            (tailX [4, 3, 2, 1] 2 (FitWindow.lower 0))
            (tailSelect [4, 3, 2, 1] 2 (FitWindow.lower 0))).1.2 *
          ((([4, 3, 2, 1] : List ℝ).length : ℝ) / ((2 : ℕ) : ℝ))),
        Real.sqrt ((fun (_ _ : List ℝ) => (((3 : ℝ), (2 : ℝ)), (((5 : ℝ), (0 : ℝ)), ((0 : ℝ), (9 : ℝ)))))
            (tailX [4, 3, 2, 1] 2 (FitWindow.lower 0))
            (tailSelect [4, 3, 2, 1] 2 (FitWindow.lower 0))).2.2.2,
        ((fun (_ _ : List ℝ) => (((3 : ℝ), (2 : ℝ)), (((5 : ℝ), (0 : ℝ)), ((0 : ℝ), (9 : ℝ)))))
            (tailX [4, 3, 2, 1] 2 (FitWindow.lower 0))
            (tailSelect [4, 3, 2, 1] 2 (FitWindow.lower 0))).1) :=
  fit_decaytime_eq (fun _ _ => ((3, 2), ((5, 0), (0, 9)))) [4, 3, 2, 1] 2
    (FitWindow.lower 0) (by norm_num) (by simp; decide)

/-!
Noise estimation (src/functions.py lines 337-391).  The Welch
periodogram and the band-limited supersampling are external SciPy calls,
passed in as oracles `welchF` (returning the frequency grid and the
segment PSD) and `ssFun`.
-/

/-- State of the noise-scanning while-loop: accepted segments, scanned
segments, detected pulse locations, accumulated PSD, last frequency
grid. -/
structure ScanState where
  nrGood : ℕ
  nr : ℕ
  allLocs : List ℕ
  sxx : List ℝ
  freqs : List ℝ

/-- Smoothed timestream of `noise_model`: box kernel `np.ones(sw)/sw`
convolved in mode `'valid'` when `sw` is truthy, the raw signal
otherwise. -/
def noiseSmoothed (signal : List ℝ) (sw : ℕ) : List ℝ :=
  if sw ≠ 0 then convolveValid signal (List.replicate sw (1 / (sw : ℝ)))
  else signal

/-- The scanning while-loop of `noise_model`: segment `nr` is
`signal[nr*pw : nr*pw + pw]`; a segment with detected peaks only
records their (shifted) locations, a clean segment contributes its
Welch PSD.  The loop stops when `nr_req` segments are accepted or the
next segment would run past the signal; `fuel` bounds the iterations
and is always supplied large enough (a segment consumes `pw ≥ 1`
samples per iteration). -/
def noiseScanLoop (welchF : List ℝ → List ℝ × List ℝ) (ssFun : List ℝ → ℕ → List ℝ)
    (signal smoothed : List ℝ) (pw : ℕ) (mph mpp : ℝ) (ssfE nrReq : ℕ) :
    ℕ → ScanState → ScanState
  | 0, s => s
  | fuel + 1, s =>
    if s.nrGood < nrReq then
      let start := s.nr * pw
      let stop := start + pw
      if signal.length ≤ stop then s
      else
        let segSmoothed := (smoothed.drop start).take pw
        let locs := (find_peaks segSmoothed mph mpp).1
        if locs ≠ [] then
          noiseScanLoop welchF ssFun signal smoothed pw mph mpp ssfE nrReq fuel
            ⟨s.nrGood, s.nr + 1, s.allLocs ++ locs.map (· + start), s.sxx, s.freqs⟩
        else
          let seg := (signal.drop start).take pw
          let seg2 := if 1 < ssfE then ssFun seg (pw * ssfE) else seg
          let w := welchF seg2
          noiseScanLoop welchF ssFun signal smoothed pw mph mpp ssfE nrReq fuel
            ⟨s.nrGood + 1, s.nr + 1, s.allLocs, addLists s.sxx w.2, w.1⟩
    else s

/-- Initial loop state: `sxx_segments = np.zeros(round(pw*ssf/2) + 1)`. -/
def noiseInitState (pw ssfE : ℕ) : ScanState :=
  ⟨0, 0, [], List.replicate (pyRoundHalf (pw * ssfE) + 1) 0, []⟩

/-- Final state of the scanning loop of `noise_model`. -/
def noiseFinalState (welchF : List ℝ → List ℝ × List ℝ) (ssFun : List ℝ → ℕ → List ℝ)
    (signal : List ℝ) (pw : ℕ) (mph mpp : ℝ) (ssf nrReq sw : ℕ) : ScanState :=
  let ssfE := if 1 < ssf then ssf else 1
  noiseScanLoop welchF ssFun signal (noiseSmoothed signal sw) pw mph mpp ssfE nrReq
    (signal.length + 1) (noiseInitState pw ssfE)

/-- Translation of `noise_model(signal, pw, sf, ssf, nr_req_segments,
mph, mpp, sw)`: scan, raise `InsufficientDataError` when no segment was
accepted, otherwise return the frequency grid, the averaged PSD, the
detected locations and the photon (event) rate
`len(all_locs) / (nr * pw / sf)`. -/
def noise_model (welchF : List ℝ → List ℝ × List ℝ) (ssFun : List ℝ → ℕ → List ℝ)
    (signal : List ℝ) (pw : ℕ) (sf : ℝ) (ssf nrReq : ℕ) (mph mpp : ℝ) (sw : ℕ) :
    Except PulseErr (List ℝ × List ℝ × List ℕ × ℝ) :=
  let s := noiseFinalState welchF ssFun signal pw mph mpp ssf nrReq sw
  if s.nrGood = 0 then .error .insufficientData
  else
    .ok (s.freqs, s.sxx.map (· / (s.nrGood : ℝ)), s.allLocs,
      (s.allLocs.length : ℝ) / ((s.nr : ℝ) * (pw : ℝ) / sf))

/-- Pulse-candidate locations detected in the `k`-th scanned segment of
the smoothed signal. -/
def segDetections (smoothed : List ℝ) (pw : ℕ) (mph mpp : ℝ) (k : ℕ) : List ℕ :=
  (find_peaks ((smoothed.drop (k * pw)).take pw) mph mpp).1

lemma noiseScanLoop_locsInvariant (welchF : List ℝ → List ℝ × List ℝ)
    (ssFun : List ℝ → ℕ → List ℝ) (signal smoothed : List ℝ) (pw : ℕ)
    (mph mpp : ℝ) (ssfE nrReq : ℕ) (fuel : ℕ) (s : ScanState)
    (hs : s.allLocs = (List.range s.nr).flatMap fun k =>
      (segDetections smoothed pw mph mpp k).map (· + k * pw)) :
    (noiseScanLoop welchF ssFun signal smoothed pw mph mpp ssfE nrReq fuel s).allLocs =
      (List.range (noiseScanLoop welchF ssFun signal smoothed pw mph mpp ssfE nrReq fuel s).nr).flatMap
        fun k => (segDetections smoothed pw mph mpp k).map (· + k * pw) := by
  induction fuel generalizing s with
  | zero => simpa [noiseScanLoop] using hs
  | succ n ih =>
    rw [noiseScanLoop]
    by_cases h1 : s.nrGood < nrReq
    · rw [if_pos h1]
      by_cases h2 : signal.length ≤ s.nr * pw + pw
      · rw [if_pos h2]; exact hs
      · rw [if_neg h2]
        by_cases h3 : (find_peaks ((smoothed.drop (s.nr * pw)).take pw) mph mpp).1 ≠ []
        · rw [if_pos h3]
          refine ih _ ?_
          simp only [List.range_succ, List.flatMap_append, List.flatMap_cons,
            List.flatMap_nil, List.append_nil]
          rw [← hs]
          rfl
        · rw [if_neg h3]
          refine ih _ ?_
          simp only [List.range_succ, List.flatMap_append, List.flatMap_cons,
            List.flatMap_nil, List.append_nil]
          rw [← hs]
          push_neg at h3
          have : (segDetections smoothed pw mph mpp s.nr).map (· + s.nr * pw) = [] := by
            rw [show segDetections smoothed pw mph mpp s.nr =
              (find_peaks ((smoothed.drop (s.nr * pw)).take pw) mph mpp).1 from rfl, h3]
            rfl
          rw [this, List.append_nil]
    · rw [if_neg h1]; exact hs

lemma noiseFinalState_locs (welchF : List ℝ → List ℝ × List ℝ)
    (ssFun : List ℝ → ℕ → List ℝ) (signal : List ℝ) (pw : ℕ)
    (mph mpp : ℝ) (ssf nrReq sw : ℕ) :
    (noiseFinalState welchF ssFun signal pw mph mpp ssf nrReq sw).allLocs =
      (List.range (noiseFinalState welchF ssFun signal pw mph mpp ssf nrReq sw).nr).flatMap
        fun k => (segDetections (noiseSmoothed signal sw) pw mph mpp k).map (· + k * pw) := by
  refine noiseScanLoop_locsInvariant _ _ _ _ _ _ _ _ _ _ _ ?_
  simp [noiseInitState]

/-- C7: whenever `noise_model` accepts at least one segment (returns
`ok`), the returned event rate equals the total number of pulse
candidates detected across all scanned segments, divided by the elapsed
scanned duration `nr * pw / sf` where `nr` is the number of scanned
segments; in particular it is 0 when no candidate was detected. -/
theorem noise_event_rate (welchF : List ℝ → List ℝ × List ℝ)
    (ssFun : List ℝ → ℕ → List ℝ) (signal : List ℝ) (pw : ℕ) (sf : ℝ)
    (ssf nrReq : ℕ) (mph mpp : ℝ) (sw : ℕ)
    (out : List ℝ × List ℝ × List ℕ × ℝ)
    (hok : noise_model welchF ssFun signal pw sf ssf nrReq mph mpp sw = .ok out) :
    out.2.2.2 =
      ((((List.range (noiseFinalState welchF ssFun signal pw mph mpp ssf nrReq sw).nr).map
          fun k => (segDetections (noiseSmoothed signal sw) pw mph mpp k).length).sum : ℕ) : ℝ) /
        (((noiseFinalState welchF ssFun signal pw mph mpp ssf nrReq sw).nr : ℝ) *
          (pw : ℝ) / sf) := by
  unfold noise_model at hok
  by_cases h0 : (noiseFinalState welchF ssFun signal pw mph mpp ssf nrReq sw).nrGood = 0
  · simp only [h0, if_pos rfl] at hok
    exact absurd hok (by simp)
  · simp only [if_neg h0] at hok
    have hT := Except.ok.inj hok
    have hlen : (noiseFinalState welchF ssFun signal pw mph mpp ssf nrReq sw).allLocs.length =
        ((List.range (noiseFinalState welchF ssFun signal pw mph mpp ssf nrReq sw).nr).map
          fun k => (segDetections (noiseSmoothed signal sw) pw mph mpp k).length).sum := by
      rw [noiseFinalState_locs]
      simp [List.length_flatMap, Function.comp_def, List.length_map]
    rw [← hT, hlen]

/-- Witness for C7: three zero samples, window 2, one requested segment,
unit sample rate, no smoothing; the scan accepts one segment, detects
nothing, and the event rate is 0. -/
theorem noise_event_rate_witness :
    ((((List.range (noiseFinalState (fun _ => ([0, 0], [0, 0])) (fun s _ => s)
            [0, 0, 0] 2 0 0 1 1 0).nr).map
        fun k => (segDetections (noiseSmoothed [0, 0, 0] 0) 2 0 0 k).length).sum : ℕ) : ℝ) /
      (((noiseFinalState (fun _ => ([0, 0], [0, 0])) (fun s _ => s)
            [0, 0, 0] 2 0 0 1 1 0).nr : ℝ) * ((2 : ℕ) : ℝ) / 1) = 0 := by
  have hstate : noiseFinalState (fun _ => ([0, 0], [0, 0])) (fun s _ => s)
      [0, 0, 0] 2 0 0 1 1 0 = ⟨1, 1, [], [0, 0], [0, 0]⟩ := by
    simp [noiseFinalState, noiseInitState, noiseSmoothed, noiseScanLoop, find_peaks,
      localMaxima, lmLoop, filterP, pyRoundHalf, addLists]
  have hok : noise_model (fun _ => ([0, 0], [0, 0])) (fun s _ => s)
      [0, 0, 0] 2 1 1 1 0 0 0 =
      .ok (([0, 0] : List ℝ), ([0, 0] : List ℝ), ([] : List ℕ), (0 : ℝ)) := by
    simp only [noise_model, hstate]
    norm_num
  have h := noise_event_rate (fun _ => ([0, 0], [0, 0])) (fun s _ => s)
    [0, 0, 0] 2 1 1 1 0 0 0 _ hok
  rw [← h]

/-!
Pulse detection and alignment, `peak_model` (src/functions.py lines
161-334), together with the smoothing kernels of `get_window` (lines
570-590).  The band-limited supersampling (`scipy.signal.resample`
inside `supersample`) is external and passed as the oracle `ssFun`; the
plotting branch performs no computation and is omitted.
-/

/-- Kernel selector of `get_window` (the strings `'box'`, `'exp'`,
`'1/t'`). -/
inductive WindowType where
  | box
  | expKernel
  | oneOverT

/-- Translation of `get_window(type, M, tau)` with `ratio = 0.01`:
`box` is `windows.boxcar(tau)/tau`; `exp` evaluates
`exp_decay(x, 1, 1/tau)` on `x = linspace(0, M-1, M)` with
`M = int(-tau*log(ratio))` and normalises to unit sum; `1/t` evaluates
`1/(1+x)` on `M = int(1/ratio - 1)` points and normalises.
(`linspace(0, M-1, M)` is `0, 1, ..., M-1`.) -/
def get_window (ty : WindowType) (M tau : ℕ) : List ℝ :=
  match ty with
  | .box => List.replicate tau (1 / (tau : ℝ))
  | .expKernel =>
      let M' := pyIntOf (-(tau : ℝ) * Real.log (1 / 100))
      let y := (List.range M').map fun (i : ℕ) => exp_decay (i : ℝ) 1 (1 / (tau : ℝ))
      y.map (· / y.sum)
  | .oneOverT =>
      let M' := pyIntOf (1 / (1 / 100 : ℝ) - 1)
      let y := (List.range M').map fun (i : ℕ) => 1 / (1 + (i : ℝ))
      y.map (· / y.sum)

/-- Smoothed timestream of `peak_model`: `np.convolve(signal,
get_window(window, pw, sw), 'valid')` when `sw` is truthy, otherwise the
raw signal. -/
def smoothedSignal (signal : List ℝ) (pw sw : ℕ) (window : WindowType) : List ℝ :=
  if sw ≠ 0 then convolveValid signal (get_window window pw sw) else signal

/-- Python slice `xs[s::-1]` (walk backwards from `s` to the start),
with the negative-index normalisation and the clamp of a too-large
start. -/
def pyRevFrom (xs : List α) (s : ℤ) : List α :=
  let L : ℤ := xs.length
  let s' := if s < 0 then s + L else s
  if s' < 0 then []
  else (xs.take ((min s' (L - 1)).toNat + 1)).reverse

/-- One iteration of the alignment loop of `peak_model` (lines 213-273)
for the candidate at `loc` with smoothed height `pk`: cut
`signal[loc-align_shift-buffer : loc+(pw-align_shift)+buffer]`, subtract
the buffer-mean drift offset, optionally supersample, find the true
(raw) peak at least as high as the smoothed one (first to the right of
the nominal location, else the last to the left), walk back to the
half-maximum rising edge, and cut the final `pw*ssf` window.  Returns
`none` when the candidate is discarded, otherwise the aligned pulse, its
true height `full_max`, and the selected location `left + idx_max`. -/
def alignCandidate (ssFun : List ℝ → ℕ → List ℝ) (signal : List ℝ)
    (pw buffer bufferLen alignShift ssfE : ℕ) (loc : ℕ) (pk : ℝ) :
    Option (List ℝ × ℝ × ℤ) :=
  let left : ℤ := (loc : ℤ) - alignShift - buffer
  let right : ℤ := (loc : ℤ) + ((pw : ℤ) - alignShift) + buffer
  let pulse0 := pySlice signal left right
  let offset := listMean (pySlice pulse0 0 buffer ++
    pySlice pulse0 (-(buffer : ℤ)) pulse0.length)
  let pulse1 := pulse0.map (· - offset)
  let pulse2 := if 1 < ssfE then ssFun pulse1 (bufferLen * ssfE) else pulse1
  let smoothedLoc := (buffer + alignShift) * ssfE
  let lenPulse := bufferLen * ssfE
  let unsmoothedHeight := pulse2.getD smoothedLoc 0
  let minHeight := if unsmoothedHeight ≤ pk then pk else unsmoothedHeight
  let fpR := find_peaks (pulse2.drop smoothedLoc) minHeight 0
  let peakInfo : Option (ℕ × ℝ) :=
    if fpR.1 ≠ [] then some (smoothedLoc + fpR.1.headD 0, fpR.2.headD 0)
    else
      let fpL := find_peaks (pulse2.take smoothedLoc) minHeight 0
      if fpL.1 ≠ [] then some ((fpL.1.getLast?).getD 0, fpL.2.headD 0)
      else none
  match peakInfo with
  | none => none
  | some (idxMax, fullMax) =>
      let selLoc : ℤ := left + idxMax
      let halfMax := fullMax / 2
      let revTail := pyRevFrom pulse2 (-(lenPulse : ℤ) + idxMax)
      let risingEdge : ℤ :=
        (idxMax : ℤ) - firstTrueIdx (revTail.map fun v => decide (v < halfMax))
      if (alignShift : ℤ) < risingEdge then
        let shiftStart : ℤ := risingEdge - (alignShift : ℤ) * ssfE
        let shiftEnd : ℤ := shiftStart + (pw : ℤ) * ssfE
        let aligned := pySlice pulse2 shiftStart shiftEnd
        if aligned.length = pw * ssfE then some (aligned, fullMax, selLoc) else none
      else none

/-- Pointwise mean of the aligned pulses, `np.mean(pulses, axis=0)`. -/
def colMean (rows : List (List ℝ)) (cols : ℕ) : List ℝ :=
  (List.range cols).map fun j => (rows.map fun r => r.getD j 0).sum / (rows.length : ℝ)

/-- Pointwise population standard deviation, `np.std(pulses, axis=0)`. -/
def colStd (rows : List (List ℝ)) (cols : ℕ) : List ℝ :=
  (List.range cols).map fun j =>
    Real.sqrt ((rows.map fun r =>
      (r.getD j 0 - (colMean rows cols).getD j 0) ^ 2).sum / (rows.length : ℝ))

/-- Outlier mask of `peak_model` (lines 312-316): keep a pulse iff all
its samples are strictly inside `mean ± filter_std * std`. -/
def outlierKeepMask (rows : List (List ℝ)) (cols : ℕ) (filterStd : ℝ) : List Bool :=
  let m := colMean rows cols
  let s := colStd rows cols
  rows.map fun r =>
    (List.range cols).all fun j =>
      decide (r.getD j 0 < m.getD j 0 + filterStd * s.getD j 0) &&
      decide (m.getD j 0 - filterStd * s.getD j 0 < r.getD j 0)

/-- Translation of `peak_model(signal, mph, mpp, pw, sw, window, ssf,
buffer, filter_std, rise_offset)`: smooth, detect, drop a final
candidate that would overrun the signal, apply the "too close" filter,
align each survivor, reject outliers, and return
`(pulses_aligned, H, sel_locs, filtered_locs, pks_smoothed)`.  With zero
detected candidates every returned component is empty. -/
def peak_model (ssFun : List ℝ → ℕ → List ℝ) (signal : List ℝ) (mph mpp : ℝ)
    (pw sw : ℕ) (window : WindowType) (ssf : ℕ)
    (bufferFrac filterStd riseOffset : ℝ) :
    List (List ℝ) × List ℝ × List ℤ × List ℕ × List ℝ :=
  let smoothed := smoothedSignal signal pw sw window
  let fp := find_peaks smoothed mph mpp
  let locsDetected := fp.1
  let pksDetected := fp.2
  let nrPulses := locsDetected.length
  if nrPulses = 0 then ([], [], [], [], [])
  else
    let buffer := pyIntOf (bufferFrac * (pw : ℝ))
    let bufferLen := 2 * buffer + pw
    let alignShift := pyIntOf (riseOffset * (pw : ℝ))
    let dropEnd := signal.length < (locsDetected.getLast?).getD 0 + pw + buffer
    let locs1 := if dropEnd then locsDetected.dropLast else locsDetected
    let pks1 := if dropEnd then pksDetected.dropLast else pksDetected
    let mask := tooCloseMask (bufferLen : ℤ) (locs1.map fun n => (n : ℤ))
    let locs2 := applyMask mask locs1
    let pks2 := applyMask mask pks1
    let ssfE := if 1 < ssf then ssf else 1
    let results := (locs2.zip pks2).map fun lp =>
      (lp.1, lp.2, alignCandidate ssFun signal pw buffer bufferLen alignShift ssfE lp.1 lp.2)
    let succ := results.filterMap fun t => (t.2.2).map fun r => (t.1, t.2.1, r)
    let pulsesAligned := succ.map fun t => t.2.2.1
    let H1 := succ.map fun t => t.2.2.2.1
    let selLocs1 := succ.map fun t => t.2.2.2.2
    let locs3 := succ.map fun t => t.1
    let pks3 := succ.map fun t => t.2.1
    let cols := pw * ssfE
    let keep := outlierKeepMask pulsesAligned cols filterStd
    let pulsesFinal := applyMask keep pulsesAligned
    let locs4 := applyMask keep locs3
    let selLocsFinal := applyMask keep selLocs1
    let pksFinal := applyMask keep pks3
    let Hfinal := applyMask keep H1
    let filteredLocs := filterP (fun l => l ∉ locs4) locsDetected
    (pulsesFinal, Hfinal, selLocsFinal, filteredLocs, pksFinal)

/-- C9: whenever no pulse candidate is detected on the (smoothed)
timestream, `peak_model` returns an empty pulse ensemble and empty
height, selected-location and rejected-location arrays, without any
error path. -/
theorem peak_model_empty (ssFun : List ℝ → ℕ → List ℝ) (signal : List ℝ)
    (mph mpp : ℝ) (pw sw : ℕ) (window : WindowType) (ssf : ℕ)
    (bufferFrac filterStd riseOffset : ℝ)
    (hdet : (find_peaks (smoothedSignal signal pw sw window) mph mpp).1 = []) :
    peak_model ssFun signal mph mpp pw sw window ssf bufferFrac filterStd riseOffset =
      ([], [], [], [], []) := by
  simp [peak_model, hdet]

/-- Witness for C9: the all-zero signal `[0, 0, 0]` with no smoothing
has no detected candidate and yields all-empty outputs. -/
theorem peak_model_empty_witness :
    peak_model (fun l _ => l) [0, 0, 0] 0 0 4 0 WindowType.box 1 0 0 0 =
      ([], [], [], [], []) :=
  peak_model_empty (fun l _ => l) [0, 0, 0] 0 0 4 0 WindowType.box 1 0 0 0
    (by simp [smoothedSignal, find_peaks, localMaxima, lmLoop, filterP])

/-!
Resolving power from a kernel density estimate (src/functions.py lines
467-521).  The Gaussian KDE itself (`scipy.stats.gaussian_kde` with
Scott bandwidth) is external and passed as the oracle `kde`, mapping the
restricted distribution and the evaluation grid to the density curve;
the rest of the routine is translated directly.
-/

/-- Range restriction of `resolving_power`: absent, a scalar lower
bound (`dist[dist > range]`), or an interval
(`dist[(dist > range[0]) & (dist < range[1])]`); the Python type check
raising `ConfigurationError` on anything else is subsumed by the tagged
variant. -/
inductive RangeSpec where
  | unbounded
  | lower (a : ℝ)
  | interval (a b : ℝ)

/-- Insertion step of the stable sort-by-first-coordinate used to model
`scipy.interpolate.interp1d`'s internal argsort. -/
def insertPair (p : ℝ × ℝ) : List (ℝ × ℝ) → List (ℝ × ℝ)
  | [] => [p]
  | q :: t => if p.1 < q.1 then p :: q :: t else q :: insertPair p t

/-- Sort point pairs by abscissa. -/
def sortPairs (l : List (ℝ × ℝ)) : List (ℝ × ℝ) :=
  l.foldr insertPair []

/-- Piecewise-linear evaluation on sorted points. -/
def interpSegments (q : ℝ) : List (ℝ × ℝ) → ℝ
  | [] => 0
  | [p] => p.2
  | p :: r :: t =>
      if q ≤ r.1 then p.2 + (q - p.1) * (r.2 - p.2) / (r.1 - p.1)
      else interpSegments q (r :: t)

/-- Model of `interp1d(xs, ys)(q)`: sort by `xs` (scipy sorts since
`assume_sorted` defaults to false) and interpolate linearly; the
repository only calls this when `min xs < q < max xs`, so no
out-of-range extrapolation arises. -/
def interp1dAt (xs ys : List ℝ) (q : ℝ) : ℝ :=
  interpSegments q (sortPairs (xs.zip ys))

/-- Translation of `resolving_power(dist, histbin, range)`: restrict the
distribution, evaluate the KDE on `np.arange(min, max, histbin/10)`,
locate the density maximum, find the half-maximum crossings on each side
(clamping, in the code, to `np.max(pdf_right)` resp. `np.min(pdf_left)`
— DENSITY values — when the half maximum lies outside the sampled
density range), and return `x_max / (f_right - f_left)` with the
rescaled density curve and its grid.  The empty restricted distribution
raises `InsufficientDataError`; an empty side selection makes `np.min` /
`np.max` raise (modelled as an error as well). -/
def resolving_power (kde : List ℝ → List ℝ → List ℝ) (dist : List ℝ)
    (histbin : ℝ) (rng : RangeSpec) : Except PulseErr (ℝ × List ℝ × List ℝ) :=
  let dist' := match rng with
    | .unbounded => dist
    | .lower a => filterP (fun v => a < v) dist
    | .interval a b => filterP (fun v => a < v ∧ v < b) dist
  if dist'.length = 0 then .error .insufficientData
  else
    let x := pyArange (listMin dist') (listMax dist') (histbin / 10)
    let nrPeaks := dist'.length
    let pdf := kde dist' x
    let pdfMax := listMax pdf
    let xMax := x.getD (npArgmax pdf) 0
    let hm := pdfMax / 2
    let pairsR := filterP (fun p => pdfMax / 4 < p.2 ∧ xMax < p.1) (x.zip pdf)
    let pdfRight := pairsR.map fun p => p.2
    let xRight := pairsR.map fun p => p.1
    if pdfRight.length = 0 then .error .insufficientData
    else
      let fRight := if listMin pdfRight < hm ∧ hm < listMax pdfRight
        then interp1dAt pdfRight xRight hm
        else listMax pdfRight
      let pairsL := filterP (fun p =>
        pdfMax / 4 < p.2 ∧ p.1 < xMax ∧ xMax - 2 * (fRight - xMax) < p.1) (x.zip pdf)
      let pdfLeft := pairsL.map fun p => p.2
      let xLeft := pairsL.map fun p => p.1
      if pdfLeft.length = 0 then .error .insufficientData
      else
        let fLeft := if listMin pdfLeft < hm ∧ hm < listMax pdfLeft
          then interp1dAt pdfLeft xLeft hm
          else listMin pdfLeft
        let rp := xMax / (fRight - fLeft)
        let pdfScaled := pdf.map (· * histbin * (nrPeaks : ℝ) / (pdf.sum * (histbin / 10)))
        .ok (rp, pdfScaled, x)

/-- C3: evaluation of `resolving_power` on a density curve whose right
tail stays above the half maximum (KDE oracle returning
`[1/2, 1, 9/10]` on the grid `[0, 1/10, 1/5]` for the two-point
distribution `[0, 3/10]` with `histbin = 1`).  The clamp branch sets
`f_right = np.max(pdf_right) = 9/10`, a DENSITY value rather than the
boundary grid position `1/5`, and the returned resolving power is
`(1/10)/(9/10 - 1/2) = 1/4` — not `x_max/(right_boundary - left_boundary)
= (1/10)/(1/5 - 0) = 1/2` as the claim describes. -/
theorem resolving_power_clamp_is_density_value :
    resolving_power (fun _ _ => [1 / 2, 1, 9 / 10]) [0, 3 / 10] 1 RangeSpec.unbounded =
      .ok (1 / 4, [25 / 6, 25 / 3, 15 / 2], [0, 1 / 10, 1 / 5]) ∧
      (1 / 4 : ℝ) ≠ (1 / 10) / (1 / 5 - 0) := by
  constructor
  · have h3 : Int.toNat 3 = 3 := rfl
    norm_num [resolving_power, filterP, pyArange, listMin, listMax, npArgmax,
      firstTrueIdx, h3, List.range_succ]
  · norm_num

/-!
The frequency-weighted matched filter `optimal_filter` (src/functions.py
lines 394-436).
-/

/-- Three-list pointwise zip (numpy elementwise arithmetic on equal
slices; like numpy slicing, truncates to the shortest input). -/
def zipWith3 (f : α → β → γ → δ) : List α → List β → List γ → List δ
  | a :: as, b :: bs, c :: cs => f a b c :: zipWith3 f as bs cs
  | _, _, _ => []

/-- The number of retained one-sided bins of `optimal_filter`:
`len_onesided = round(pw/2) + 1` with `pw = int(len_pulse / ssf)` and
`len_pulse = pulses.shape[1]` (NOT `round(len_pulse/2) + 1`). -/
def oneSidedLen (pulses : List (List ℝ)) (ssf : ℕ) : ℕ :=
  pyRoundHalf ((pulses.headD []).length / (if 1 < ssf then ssf else 1)) + 1

/-- Peak-normalised template,
`norm_pulse_model = pulse_model / np.amax(pulse_model)`. -/
def normModel (pulse_model : List ℝ) : List ℝ :=
  pulse_model.map (· / listMax pulse_model)

/-- Step 3 of `optimal_filter` (lines 424-429): per-pulse refined
heights
`H = Re( sum(numerator[:, 1:]) / sum(denominator[1:]) )` with
`numerator = conj(Mf) * Df / Nxx` and `denominator = |Mf|^2 / Nxx` over
the first `len_onesided` bins. -/
def optimalHeights (pulses : List (List ℝ)) (pulse_model : List ℝ)
    (Nxx : List ℝ) (ssf : ℕ) : List ℝ :=
  let lenOnesided := oneSidedLen pulses ssf
  let Mf := (dft ((normModel pulse_model).map Complex.ofReal)).take lenOnesided
  let MfConj := Mf.map (starRingEnd ℂ)
  let MfAbs := Mf.map Complex.abs
  let Df := pulses.map fun p => (dft (p.map Complex.ofReal)).take lenOnesided
  let numerator := Df.map fun d =>
    zipWith3 (fun (m : ℂ) (dk : ℂ) (n : ℝ) => m * dk / (n : ℂ)) MfConj d Nxx
  let denominator := List.zipWith (fun (m : ℝ) (n : ℝ) => m ^ 2 / n) MfAbs Nxx
  let intNumerator := numerator.map fun row => (row.drop 1).sum
  let intDenominator := (denominator.drop 1).sum
  intNumerator.map fun z => (z / (intDenominator : ℂ)).re

/-- Translation of `optimal_filter(pulses, pulse_model, sf, ssf, Nxx)`:
peak-normalise the template, compute its PSD, refine the heights
(`optimalHeights`), and derive the NEP-based resolving-power figure;
returns `(H, R_sn, mean_Dxx)`.  (`z ** 0.5` is `Real.sqrt z` and
`z ** -0.5` is `(Real.sqrt z)⁻¹`, exact for the non-negative operands
arising here.) -/
def optimal_filter (pulses : List (List ℝ)) (pulse_model : List ℝ) (sf : ℝ)
    (ssf : ℕ) (Nxx : List ℝ) : List ℝ × ℝ × List ℝ :=
  let ssfE := if 1 < ssf then ssf else 1
  let lenOnesided := oneSidedLen pulses ssf
  let Mxx := psd1 (normModel pulse_model) (sf * ssfE)
  let Dxx := psd2 pulses (sf * ssfE)
  let meanDxx := colMean Dxx (Dxx.headD []).length
  let H := optimalHeights pulses pulse_model Nxx ssf
  let NEP := H.map fun h =>
    List.zipWith (fun (n : ℝ) (mx : ℝ) => Real.sqrt ((1 / h) ^ 2 * (2 * n / mx)))
      (Nxx.take lenOnesided) (Mxx.take lenOnesided)
  let dE := NEP.map fun row =>
    2 * Real.sqrt (2 * Real.log 2) *
      (Real.sqrt ((((row.drop 1).dropLast).map fun v => 4 / v ^ 2).sum))⁻¹
  let Rsn := listMean (dE.map fun v => 1 / v)
  (H, Rsn, meanDxx)

/-- Refined heights exactly as claim C1 words them (for comparison with
`optimal_filter`): `M` and `D` are the one-sided FFTs over ALL
`floor(L/2)+1` non-negative-frequency bins of the full pulse length `L`,
and both sums run over every bin except DC, i.e. `k = 1 .. floor(L/2)`. -/
def heightsSpecC1 (pulses : List (List ℝ)) (pulse_model : List ℝ)
    (Nxx : List ℝ) : List ℝ :=
  let L := (pulses.headD []).length
  let M := dft ((pulse_model.map (· / listMax pulse_model)).map Complex.ofReal)
  pulses.map fun p =>
    let D := dft (p.map Complex.ofReal)
    (∑ k ∈ Finset.Icc 1 (L / 2),
        (starRingEnd ℂ) (M.getD k 0) * D.getD k 0 / ((Nxx.getD k 0 : ℝ) : ℂ)).re /
      ∑ k ∈ Finset.Icc 1 (L / 2), Complex.abs (M.getD k 0) ^ 2 / Nxx.getD k 0

lemma exp_ofReal_mul_I (t : ℝ) :
    Complex.exp ((t : ℂ) * Complex.I) =
      (Real.cos t : ℂ) + (Real.sin t : ℂ) * Complex.I := by
  rw [Complex.exp_mul_I, Complex.ofReal_cos, Complex.ofReal_sin]

lemma dft_delta_four :
    dft ([1, 0, 0, 0] : List ℂ) = [1, 1, 1, 1] := by
  unfold dft
  norm_num [List.range_succ, Finset.sum_range_succ]

lemma exp_quarter_one :
    Complex.exp (-(2 * (Real.pi : ℂ) * Complex.I) / 4) = -Complex.I := by
  have h : -(2 * (Real.pi : ℂ) * Complex.I) / 4 =
      ((-(Real.pi / 2) : ℝ) : ℂ) * Complex.I := by
    push_cast; ring
  rw [h, exp_ofReal_mul_I, Real.cos_neg, Real.sin_neg, Real.cos_pi_div_two,
    Real.sin_pi_div_two]
  push_cast
  ring

lemma exp_quarter_two :
    Complex.exp (-(2 * (Real.pi : ℂ) * Complex.I * 2) / 4) = -1 := by
  have h : -(2 * (Real.pi : ℂ) * Complex.I * 2) / 4 =
      ((-Real.pi : ℝ) : ℂ) * Complex.I := by
    push_cast; ring
  rw [h, exp_ofReal_mul_I, Real.cos_neg, Real.sin_neg, Real.cos_pi, Real.sin_pi]
  push_cast
  ring

lemma exp_quarter_three :
    Complex.exp (-(2 * (Real.pi : ℂ) * Complex.I * 3) / 4) = Complex.I := by
  have h : -(2 * (Real.pi : ℂ) * Complex.I * 3) / 4 =
      ((Real.pi / 2 : ℝ) : ℂ) * Complex.I + -(2 * (Real.pi : ℂ) * Complex.I) := by
    push_cast; ring
  rw [h, Complex.exp_add, exp_ofReal_mul_I, Real.cos_pi_div_two, Real.sin_pi_div_two,
    Complex.exp_neg, Complex.exp_two_pi_mul_I]
  push_cast
  ring

lemma dft_shift_four :
    dft ([0, 1, 0, 0] : List ℂ) = [1, -Complex.I, -1, Complex.I] := by
  unfold dft
  norm_num [List.range_succ, Finset.sum_range_succ, exp_quarter_one,
    exp_quarter_two, exp_quarter_three]

lemma listMax_delta_four : listMax [1, 0, 0, 0] = 1 := by
  norm_num [listMax, max_eq_left]

lemma optimal_filter_H_example :
    (optimal_filter [[0, 1, 0, 0]] [1, 0, 0, 0] 1 2 [1, 1, 1]).1 = [0] := by
  simp only [optimal_filter, optimalHeights, oneSidedLen, normModel]
  norm_num [listMax_delta_four, dft_delta_four, dft_shift_four, zipWith3,
    pyRoundHalf, map_one, Complex.ext_iff]

lemma heightsSpecC1_example :
    heightsSpecC1 [[0, 1, 0, 0]] [1, 0, 0, 0] [1, 1, 1] = [-(1 / 2)] := by
  simp only [heightsSpecC1]
  norm_num [listMax_delta_four, dft_delta_four, dft_shift_four,
    show Finset.Icc 1 2 = ({1, 2} : Finset ℕ) by decide,
    Finset.sum_insert, Finset.sum_singleton, map_one, Complex.ext_iff]

/-- C1: counterexample.  With `ssf = 2`, pulses `[[0,1,0,0]]` (length
`L = 4`), the peak-normalised template `[1,0,0,0]` and flat noise PSD
`[1,1,1]`, the code truncates both FFTs to `round(pw/2)+1 = 2` bins
(`pw = L/ssf = 2`) and sums only bin 1, giving `H = Re(-i) = 0`; the
claim's formula over all `floor(L/2)+1` bins of the full length L sums
bins 1 and 2 and gives `Re(-i - 1)/2 = -1/2`. -/
theorem optimal_filter_not_full_length_bins :
    (optimal_filter [[0, 1, 0, 0]] [1, 0, 0, 0] 1 2 [1, 1, 1]).1 ≠
      heightsSpecC1 [[0, 1, 0, 0]] [1, 0, 0, 0] [1, 1, 1] := by
  rw [optimal_filter_H_example, heightsSpecC1_example]
  intro h
  rw [List.cons.injEq] at h
  have h1 := h.1
  norm_num at h1

lemma list_sum_getD {M : Type*} [AddCommMonoid M] (l : List M) :
    l.sum = ∑ k ∈ Finset.range l.length, l.getD k 0 := by
  induction l with
  | nil => simp
  | cons a t ih =>
      rw [List.length_cons, Finset.sum_range_succ']
      simp only [List.getD_cons_succ, List.getD_cons_zero, List.sum_cons, ← ih]
      exact add_comm _ _

lemma sum_drop_one {M : Type*} [AddCommMonoid M] (l : List M) :
    (l.drop 1).sum = ∑ k ∈ Finset.Icc 1 (l.length - 1), l.getD k 0 := by
  cases l with
  | nil => simp
  | cons a t =>
      have hd : (a :: t).drop 1 = t := rfl
      rw [hd, list_sum_getD t]
      have hic : Finset.Icc 1 ((a :: t).length - 1) = Finset.Ico 1 (t.length + 1) := by
        rw [Nat.Ico_succ_right, List.length_cons, Nat.add_sub_cancel]
      rw [hic, Finset.sum_Ico_eq_sum_range]
      simp only [Nat.add_sub_cancel]
      refine Finset.sum_congr rfl fun k _ => ?_
      rw [show 1 + k = k + 1 by omega, List.getD_cons_succ]

lemma zipWith3_length (f : α → β → γ → δ) (a : List α) (b : List β) (c : List γ) :
    (zipWith3 f a b c).length = min a.length (min b.length c.length) := by
  induction a generalizing b c with
  | nil => simp [zipWith3]
  | cons x xs ih =>
      cases b with
      | nil => simp [zipWith3]
      | cons y ys =>
          cases c with
          | nil => simp [zipWith3]
          | cons z zs => simp [zipWith3, ih]; omega

lemma zipWith3_getD (f : α → β → γ → δ) (a : List α) (b : List β) (c : List γ)
    (k : ℕ) (d₁ : α) (d₂ : β) (d₃ : γ) (d₄ : δ)
    (hk : k < (zipWith3 f a b c).length) :
    (zipWith3 f a b c).getD k d₄ = f (a.getD k d₁) (b.getD k d₂) (c.getD k d₃) := by
  induction a generalizing b c k with
  | nil => simp [zipWith3] at hk
  | cons x xs ih =>
      cases b with
      | nil => simp [zipWith3] at hk
      | cons y ys =>
          cases c with
          | nil => simp [zipWith3] at hk
          | cons z zs =>
              cases k with
              | zero => simp [zipWith3]
              | succ m =>
                  simp only [zipWith3, List.getD_cons_succ]
                  exact ih ys zs m (by simpa [zipWith3] using hk)

lemma map_getD (f : α → β) (l : List α) (k : ℕ) (d : α) (hk : k < l.length) :
    (l.map f).getD k (f d) = f (l.getD k d) := by
  rw [listGetD _ _ _ (by simpa using hk), List.getElem_map, listGetD _ _ _ hk]

lemma take_getD (l : List α) (m k : ℕ) (d : α) (hk : k < m) (hk2 : k < l.length) :
    (l.take m).getD k d = l.getD k d := by
  rw [listGetD _ _ _ (by simp; omega), List.getElem_take, listGetD _ _ _ hk2]

lemma map_getD_in (f : α → β) (l : List α) (k : ℕ) (d : β) (d' : α)
    (hk : k < l.length) :
    (l.map f).getD k d = f (l.getD k d') := by
  rw [listGetD _ _ _ (by simpa using hk), List.getElem_map, listGetD _ _ _ hk]

lemma zipWith_getD_in (f : α → β → γ) (a : List α) (b : List β) (k : ℕ)
    (d : γ) (d₁ : α) (d₂ : β) (hk : k < (List.zipWith f a b).length) :
    (List.zipWith f a b).getD k d = f (a.getD k d₁) (b.getD k d₂) := by
  have hk' := hk
  rw [List.length_zipWith] at hk'
  obtain ⟨ha, hb⟩ := lt_min_iff.mp hk'
  rw [listGetD _ _ _ hk, List.getElem_zipWith, listGetD _ _ _ ha, listGetD _ _ _ hb]

/-- C1 (amended): for a batch of equal-length pulses (length `L`), a
template and a noise PSD long enough for the retained bins, the refined
height of pulse `i` equals
`Re( sum_k conj(M_k) D_k / N_k ) / sum_k |M_k|^2 / N_k`, where `M` and
`D` are the full-length FFTs of the peak-normalised template and of the
pulse, and both sums run over `k = 1 .. round(pw/2)` with
`pw = int(L/ssf)` — the first `round(pw/2)+1` one-sided bins minus DC,
NOT all `floor(L/2)+1` one-sided bins of the full length `L`. -/
theorem optimal_filter_H_formula (pulses : List (List ℝ)) (pulse_model : List ℝ)
    (sf : ℝ) (ssf : ℕ) (Nxx : List ℝ) (i : ℕ) (hi : i < pulses.length)
    (hrect : ∀ p ∈ pulses, p.length = (pulses.headD []).length)
    (hone : oneSidedLen pulses ssf ≤ (pulses.headD []).length)
    (hM : oneSidedLen pulses ssf ≤ pulse_model.length)
    (hN : oneSidedLen pulses ssf ≤ Nxx.length) :
    ((optimal_filter pulses pulse_model sf ssf Nxx).1).getD i 0 =
      (∑ k ∈ Finset.Icc 1 (oneSidedLen pulses ssf - 1),
          (starRingEnd ℂ) ((dft ((normModel pulse_model).map Complex.ofReal)).getD k 0) *
            (dft ((pulses.getD i []).map Complex.ofReal)).getD k 0 /
              ((Nxx.getD k 0 : ℝ) : ℂ)).re /
        ∑ k ∈ Finset.Icc 1 (oneSidedLen pulses ssf - 1),
          Complex.abs ((dft ((normModel pulse_model).map Complex.ofReal)).getD k 0) ^ 2 /
            Nxx.getD k 0 := by
  have hfst : (optimal_filter pulses pulse_model sf ssf Nxx).1 =
      optimalHeights pulses pulse_model Nxx ssf := rfl
  rw [hfst]
  set L1 := oneSidedLen pulses ssf with hL1
  set M := dft ((normModel pulse_model).map Complex.ofReal) with hMdef
  have hL1pos : 1 ≤ L1 := by rw [hL1, oneSidedLen]; omega
  have hMlen : M.length = pulse_model.length := by
    rw [hMdef, dft_length, List.length_map, normModel, List.length_map]
  have hplen : (pulses.getD i []).length = (pulses.headD []).length := by
    rw [listGetD _ _ _ hi]
    exact hrect _ (List.getElem_mem hi)
  have hDlen : (dft ((pulses.getD i []).map Complex.ofReal)).length =
      (pulses.headD []).length := by
    rw [dft_length, List.length_map, hplen]
  have hOH : optimalHeights pulses pulse_model Nxx ssf =
      pulses.map fun p =>
        ((((zipWith3 (fun (m : ℂ) (dk : ℂ) (n : ℝ) => m * dk / (n : ℂ))
              ((M.take L1).map (starRingEnd ℂ))
              ((dft (p.map Complex.ofReal)).take L1) Nxx).drop 1).sum) /
          (((((List.zipWith (fun (m : ℝ) (n : ℝ) => m ^ 2 / n)
              ((M.take L1).map Complex.abs) Nxx).drop 1).sum : ℝ)) : ℂ)).re := by
    simp only [optimalHeights, List.map_map]
    rw [← hL1, ← hMdef]
    rfl
  rw [hOH]
  rw [map_getD_in _ pulses i 0 [] hi]
  rw [Complex.div_ofReal_re]
  have hzlen : (zipWith3 (fun (m : ℂ) (dk : ℂ) (n : ℝ) => m * dk / (n : ℂ))
      ((M.take L1).map (starRingEnd ℂ))
      ((dft ((pulses.getD i []).map Complex.ofReal)).take L1) Nxx).length = L1 := by
    rw [zipWith3_length]
    simp only [List.length_map, List.length_take, hMlen, hDlen]
    omega
  have hdlen : (List.zipWith (fun (m : ℝ) (n : ℝ) => m ^ 2 / n)
      ((M.take L1).map Complex.abs) Nxx).length = L1 := by
    rw [List.length_zipWith]
    simp only [List.length_map, List.length_take, hMlen]
    omega
  have hnum : ((zipWith3 (fun (m : ℂ) (dk : ℂ) (n : ℝ) => m * dk / (n : ℂ))
      ((M.take L1).map (starRingEnd ℂ))
      ((dft ((pulses.getD i []).map Complex.ofReal)).take L1) Nxx).drop 1).sum =
      ∑ k ∈ Finset.Icc 1 (L1 - 1),
        (starRingEnd ℂ) (M.getD k 0) *
          (dft ((pulses.getD i []).map Complex.ofReal)).getD k 0 /
            ((Nxx.getD k 0 : ℝ) : ℂ) := by
    rw [sum_drop_one, hzlen]
    refine Finset.sum_congr rfl fun k hk => ?_
    have hk1 : k < L1 := by
      rw [Finset.mem_Icc] at hk
      omega
    rw [zipWith3_getD _ _ _ _ k 0 0 0 0 (by rw [hzlen]; exact hk1)]
    rw [map_getD_in (starRingEnd ℂ) (M.take L1) k 0 0
      (by simp only [List.length_take]; rw [hMlen]; omega)]
    rw [take_getD M L1 k 0 hk1 (by omega)]
    rw [take_getD _ L1 k (0 : ℂ) hk1 (by rw [hDlen]; omega)]
  have hden : ((List.zipWith (fun (m : ℝ) (n : ℝ) => m ^ 2 / n)
      ((M.take L1).map Complex.abs) Nxx).drop 1).sum =
      ∑ k ∈ Finset.Icc 1 (L1 - 1),
        Complex.abs (M.getD k 0) ^ 2 / Nxx.getD k 0 := by
    rw [sum_drop_one, hdlen]
    refine Finset.sum_congr rfl fun k hk => ?_
    have hk1 : k < L1 := by
      rw [Finset.mem_Icc] at hk
      omega
    rw [zipWith_getD_in _ _ _ k 0 0 0 (by rw [hdlen]; exact hk1)]
    rw [map_getD_in Complex.abs (M.take L1) k 0 0
      (by simp only [List.length_take]; rw [hMlen]; omega)]
    rw [take_getD M L1 k (0 : ℂ) hk1 (by omega)]
  rw [hnum, hden]

/-- Witness for C1 (amended) at the counterexample input: one pulse
`[0,1,0,0]`, template `[1,0,0,0]`, `ssf = 2`, noise PSD `[1,1,1]`. -/
theorem optimal_filter_H_formula_witness :
    ((optimal_filter [[0, 1, 0, 0]] [1, 0, 0, 0] 1 2 [1, 1, 1]).1).getD 0 0 =
      (∑ k ∈ Finset.Icc 1 (oneSidedLen [[0, 1, 0, 0]] 2 - 1),
          (starRingEnd ℂ) ((dft ((normModel [1, 0, 0, 0]).map Complex.ofReal)).getD k 0) *
            (dft ((([[0, 1, 0, 0]] : List (List ℝ)).getD 0 []).map Complex.ofReal)).getD k 0 /
              ((([1, 1, 1] : List ℝ).getD k 0 : ℝ) : ℂ)).re /
        ∑ k ∈ Finset.Icc 1 (oneSidedLen [[0, 1, 0, 0]] 2 - 1),
          Complex.abs ((dft ((normModel [1, 0, 0, 0]).map Complex.ofReal)).getD k 0) ^ 2 /
            ([1, 1, 1] : List ℝ).getD k 0 :=
  optimal_filter_H_formula [[0, 1, 0, 0]] [1, 0, 0, 0] 1 2 [1, 1, 1] 0
    (by norm_num) (by simp) (by norm_num [oneSidedLen, pyRoundHalf])
    (by norm_num [oneSidedLen, pyRoundHalf]) (by norm_num [oneSidedLen, pyRoundHalf])
